import Mathlib

/-!
Shallow embedding of `core/services/relay/evm/event_binding.go`
(the `eventBinding` type: filter lifecycle `Register` / `Unregister` / `Bind`,
the read path `GetLatestValue` with its filtered and unfiltered branches,
candidate narrowing `matchesRemainingFilters`, newest-candidate selection
via `compareLogs`, log decoding `decodeLog`, and the log-source error
normalisation `wrapInternalErr`).

Modelling conventions:
* `common.Hash` ([32]byte) and topic byte-slices are abstracted to `Nat`;
  the code only ever compares them for byte-for-byte equality.
* `common.Address` is abstracted to `String` (the code only stores and
  forwards it); `common.HexToAddress` is modelled as the identity
  conversion from the bound-contract address string.
* Go `int64` block numbers and log indices are modelled as `Int`; the
  subtractions in `compareLogs` cannot overflow for the non-negative
  values the log poller produces, so no 2^64 wrap is modelled.
* A Go slice index that may be out of range (`filtersAndIndices[0]`,
  `log.Topics[i+2]`) is modelled by returning `none` (the Go panic);
  functions on that path return `Option` results, `none` = panic.
* External collaborators (the remote codec pipeline and the log source's
  query results) are oracles: fixed result values carried by the state,
  exactly the values the Go calls would return.
-/

namespace EvmEvent

/-- Abstraction of `common.Hash` / 32-byte topic values; only equality is used. -/
abbrev Hash := Nat

/-- Abstraction of `common.Address`. -/
abbrev Address := String

/-- Models `common.HexToAddress` (external go-ethereum conversion) as the
identity on the abstract address representation. -/
def hexToAddress (s : String) : Address := s

/-- An error produced by an external collaborator (a Go `error`); only its
message is inspected (`err.Error()` in `wrapInternalErr`). -/
structure GoErr where
  msg : String
deriving DecidableEq, Repr

/-- The sentinel error kinds of `commontypes` used by the file:
`ErrInvalidType`, `ErrNotFound`, `ErrInternal`. -/
inductive Sentinel
  | invalidType
  | notFound
  | internal
deriving DecidableEq, Repr

/-- An error value built by the binding. `wrapGo s cause` is
`fmt.Errorf("%w: %w", sentinel, cause)` — the sentinel plus the original
error retained as wrapped context. `wrapMsg s m` is
`fmt.Errorf("%w: <literal message>", sentinel)`. -/
inductive BindErr
  | wrapGo (s : Sentinel) (cause : GoErr)
  | wrapMsg (s : Sentinel) (m : String)
deriving DecidableEq, Repr

/-- The sentinel a `BindErr` wraps (`errors.Is` against the taxonomy). -/
def BindErr.sentinel : BindErr → Sentinel
  | .wrapGo s _ => s
  | .wrapMsg s _ => s

/-- Does the first list start with the second (helper for Go
`strings.Contains`)? -/
def strStarts : List Char → List Char → Bool
  | _, [] => true
  | [], _ :: _ => false
  | c :: cs, d :: ds => c = d && strStarts cs ds

/-- Does the first list contain the second as a contiguous run? -/
def strContainsAux : List Char → List Char → Bool
  | [], sub => sub.isEmpty
  | c :: cs, sub => strStarts (c :: cs) sub || strContainsAux cs sub

/-- Go `strings.Contains s sub`. -/
def containsSubstr (s sub : String) : Bool :=
  strContainsAux s.toList sub.toList

/-- `wrapInternalErr` (event_binding.go:260-270): `nil` passes through;
an error whose message contains "not found" or "no rows" is re-signalled
as `NotFound` wrapping the original; anything else as `Internal` wrapping
the original. -/
def wrapInternalErr : Option GoErr → Option BindErr
  | none => none
  | some err =>
    if containsSubstr err.msg "not found" || containsSubstr err.msg "no rows" then
      some (.wrapGo .notFound err)
    else
      some (.wrapGo .internal err)

/-- `logpoller.Confirmations`: the two values used by the binding. -/
inductive Confirmations
  | finalized
  | unconfirmed
deriving DecidableEq, Repr

/-- `logpoller.Log` (the fields the binding reads): block number, log
index, ordered topic hashes, raw data payload. -/
structure Log where
  blockNumber : Int
  logIndex : Int
  topics : List Hash
  data : List Nat
deriving DecidableEq, Repr

/-- `logpoller.Filter` as registered by the binding: name (the binding's
unique id), event signature hashes, watched addresses. -/
structure Filter where
  name : String
  eventSigs : List Hash
  addresses : List Address
deriving DecidableEq, Repr

deriving instance DecidableEq for Except

/-- The log source ("LogPoller") modelled as a keyed set of filters plus
oracles for the outcomes of its fallible / query operations: when
`registerErr` (resp. `unregisterErr`) is `some e`, a `RegisterFilter`
(resp. `UnregisterFilter`) call fails with `e` and leaves the set
unchanged; `indexedLogsResult` / `latestLogResult` are the values an
`IndexedLogs` / `LatestLogByEventSigWithConfs` call returns. -/
structure LogPoller where
  filters : List (String × Filter)
  registerErr : Option GoErr
  unregisterErr : Option GoErr
  indexedLogsResult : Except GoErr (List Log)
  latestLogResult : Except GoErr Log
deriving DecidableEq, Repr

/-- `lp.HasFilter(id)`. -/
def hasFilter (lp : LogPoller) (id : String) : Bool :=
  (lp.filters.lookup id).isSome

/-- `lp.RegisterFilter(f)`: fails per the oracle, otherwise stores `f`
under its name. -/
def registerFilter (lp : LogPoller) (f : Filter) : Except GoErr LogPoller :=
  match lp.registerErr with
  | some e => .error e
  | none => .ok { lp with filters := (f.name, f) :: lp.filters.filter (fun p => p.1 ≠ f.name) }

/-- `lp.UnregisterFilter(id)`: fails per the oracle, otherwise removes the
filter keyed by `id`. -/
def unregisterFilter (lp : LogPoller) (id : String) : Except GoErr LogPoller :=
  match lp.unregisterErr with
  | some e => .error e
  | none => .ok { lp with filters := lp.filters.filter (fun p => p.1 ≠ id) }

/-- The mutable / identifying state of `eventBinding` needed by the
embedded operations.  `inputInfoArgsLen` is `len(e.inputInfo.Args)` and
`topicInfoArgsLen` is `len(e.topicInfo.Args)` (the codec entries are
immutable; only these lengths steer control flow). -/
structure EventBinding where
  address : Address
  hash : Hash
  pending : Bool
  bound : Bool
  registerCalled : Bool
  id : String
  inputInfoArgsLen : Nat
  topicInfoArgsLen : Nat
deriving DecidableEq, Repr

/-- `commontypes.BoundContract` (the fields `Bind` reads). -/
structure BoundContract where
  address : String
  pending : Bool
deriving DecidableEq, Repr

/-- `eventBinding.Register` (event_binding.go:48-65): sets the
register-requested latch, no-ops unless bound and without an existing
filter for its id, otherwise registers `{id, [hash], [address]}`,
wrapping a failure as `Internal`. Returns the updated binding, updated
log poller, and the error if any. -/
def Register (e : EventBinding) (lp : LogPoller) :
    EventBinding × LogPoller × Option BindErr :=
  let e' := { e with registerCalled := true }
  if !e'.bound || hasFilter lp e'.id then
    (e', lp, none)
  else
    match registerFilter lp ⟨e'.id, [e'.hash], [e'.address]⟩ with
    | .error err => (e', lp, some (.wrapGo .internal err))
    | .ok lp' => (e', lp', none)

/-- `eventBinding.Unregister` (event_binding.go:67-79): no-op when no
filter is present for the binding's id, otherwise removes it, wrapping a
failure as `Internal`. The binding state itself is not modified. -/
def Unregister (e : EventBinding) (lp : LogPoller) :
    LogPoller × Option BindErr :=
  if !hasFilter lp e.id then
    (lp, none)
  else
    match unregisterFilter lp e.id with
    | .error err => (lp, some (.wrapGo .internal err))
    | .ok lp' => (lp', none)

/-- `eventBinding.Bind` (event_binding.go:98-111): unregister first
(propagating a failure with no state change to the binding), then install
the new address / pending flag and mark bound, then re-register iff the
register-requested latch is set. -/
def Bind (e : EventBinding) (lp : LogPoller) (b : BoundContract) :
    EventBinding × LogPoller × Option BindErr :=
  match Unregister e lp with
  | (lp', some err) => (e, lp', some err)
  | (lp', none) =>
    let e' := { e with address := hexToAddress b.address, pending := b.pending, bound := true }
    if e'.registerCalled then Register e' lp' else (e', lp', none)

/-- `compareLogs` (event_binding.go:181-191): signed difference of block
numbers when they differ, else of log indices; a `nil` incumbent loses
(`1`). -/
def compareLogs (log : Log) (use : Option Log) : Int :=
  match use with
  | none => 1
  | some use =>
    if log.blockNumber ≠ use.blockNumber then
      log.blockNumber - use.blockNumber
    else
      log.logIndex - use.logIndex

/-- Loop body of `matchesRemainingFilters` with the running filter index
`i`: the Go code indexes `log.Topics[i+2]` with no bounds check — an
out-of-range access is the Go panic, modelled as `none`; a mismatching
topic returns `some false` before any further access; exhausting the
filters returns `some true`. -/
def matchesRemainingFiltersFrom (log : Log) : Nat → List Hash → Option Bool
  | _, [] => some true
  | i, rfai :: rest =>
    match log.topics.get? (i + 2) with
    | none => none
    | some t =>
      if rfai = t then
        matchesRemainingFiltersFrom log (i + 1) rest
      else
        some false

/-- `matchesRemainingFilters` (event_binding.go:193-201). -/
def matchesRemainingFilters (log : Log) (filters : List Hash) : Option Bool :=
  matchesRemainingFiltersFrom log 0 filters

/-- The selection loop of `getLatestValueWithFilters`
(event_binding.go:151-158): fold over the candidates keeping the newest
one that also passes the remaining client-side filters. The Go `&&`
short-circuits, so `matchesRemainingFilters` only runs (and can only
panic, `none`) for a candidate newer than the incumbent. -/
def selectLatest (filters : List Hash) : List Log → Option Log → Option (Option Log)
  | [], logToUse => some logToUse
  | log :: rest, logToUse =>
    if compareLogs log logToUse > 0 then
      match matchesRemainingFilters log filters with
      | none => none
      | some true => selectLatest filters rest (some log)
      | some false => selectLatest filters rest logToUse
    else
      selectLatest filters rest logToUse

/-- One call made to the log source during `GetLatestValue` (used to state
which queries reach the log source and with which arguments).
`indexedLogs h a slot hs c` is `lp.IndexedLogs(h, a, slot, hs, c)`;
`latestLog h a c` is `lp.LatestLogByEventSigWithConfs(h, a, c)`. -/
inductive LpCall
  | indexedLogs (h : Hash) (a : Address) (slot : Nat) (hs : List Hash) (c : Confirmations)
  | latestLog (h : Hash) (a : Address) (c : Confirmations)
deriving DecidableEq, Repr

/-- Oracle for the codec / modifier pipeline collaborators of
`GetLatestValue` (external to the binding, §4.1 of the design):
`encodeResult` is the outcome of `convertToOffChainType` +
`TransformForOnChain` + `encodeParams` (the computed topic hashes, or the
error any of those steps returned); `dataDecode log` is the outcome of
`e.codec.Decode(log.Data, into, dataType)` (whose error the binding
returns unmodified); `parseTopics ts` is the outcome of
`abi.ParseTopics` on the extracted topic slice; `mapDecode` the outcome
of the final `mapstructureDecode` merge. -/
structure CodecOracle where
  encodeResult : Except BindErr (List Hash)
  dataDecode : Log → Option GoErr
  parseTopics : List Hash → Option GoErr
  mapDecode : Option BindErr
deriving Inhabited

/-- Outcome of `GetLatestValue`: either the winning log was fully decoded
into the caller's target, or an error. -/
inductive GLVResult
  | ok (decoded : Log)
  | err (e : BindErr)
deriving DecidableEq, Repr

/-- `eventBinding.decodeLog` (event_binding.go:237-258): decode the data
payload via the codec (propagating its error unmodified); fail with
`InvalidType` when the log carries fewer than `len(topicInfo.Args) + 1`
topics; parse topic slots `1 .. len(topicInfo.Args)` (failure wrapped as
`InvalidType`); finally merge via `mapstructureDecode`. `none` = success. -/
def decodeLog (e : EventBinding) (c : CodecOracle) (log : Log) : Option BindErr :=
  match c.dataDecode log with
  | some err => some (.wrapGo .invalidType err)
  | none =>
    if log.topics.length < e.topicInfoArgsLen + 1 then
      some (.wrapMsg .invalidType "not enough topics to decode")
    else
      let topics := (List.range e.topicInfoArgsLen).map (fun i => log.topics.getD (i + 1) 0)
      match c.parseTopics topics with
      | some err => some (.wrapGo .invalidType err)
      | none => c.mapDecode

/-- Package a `decodeLog` outcome on the chosen log as a `GLVResult`. -/
def glvOfDecode (e : EventBinding) (c : CodecOracle) (log : Log) : GLVResult :=
  match decodeLog e c log with
  | some err => .err err
  | none => .ok log

/-- `getLatestValueWithoutFilters` (event_binding.go:113-120): one
`LatestLogByEventSigWithConfs` query, error normalised by
`wrapInternalErr`, then decode. -/
def getLatestValueWithoutFilters (e : EventBinding) (c : CodecOracle) (lp : LogPoller)
    (confs : Confirmations) : Option (GLVResult × List LpCall) :=
  let call := LpCall.latestLog e.hash e.address confs
  match lp.latestLogResult with
  | .error err =>
    match wrapInternalErr (some err) with
    | some werr => some (.err werr, [call])
    | none => none
  | .ok log => some (glvOfDecode e c log, [call])

/-- `getLatestValueWithFilters` (event_binding.go:122-165): compute the
topic hashes (any pipeline error returned as-is, before any log-source
call); take the first hash (`filtersAndIndices[0]` — a Go panic, `none`,
on an empty slice) as the native `IndexedLogs` filter at topic slot 1 and
hold the rest back; normalise a query error via `wrapInternalErr`; run
the newest-matching selection loop; `NotFound` when nothing survives,
else decode the winner. -/
def getLatestValueWithFilters (e : EventBinding) (c : CodecOracle) (lp : LogPoller)
    (confs : Confirmations) : Option (GLVResult × List LpCall) :=
  match c.encodeResult with
  | .error err => some (.err err, [])
  | .ok filtersAndIndices =>
    match filtersAndIndices with
    | [] => none
    | fai :: remainingFilters =>
      let call := LpCall.indexedLogs e.hash e.address 1 [fai] confs
      match lp.indexedLogsResult with
      | .error err =>
        match wrapInternalErr (some err) with
        | some werr => some (.err werr, [call])
        | none => none
      | .ok logs =>
        match selectLatest remainingFilters logs none with
        | none => none
        | some none => some (.err (.wrapMsg .notFound "no events found"), [call])
        | some (some logToUse) => some (glvOfDecode e c logToUse, [call])

/-- `eventBinding.GetLatestValue` (event_binding.go:81-96): `InvalidType`
("event not bound") unless bound — returned before any log-source call
(empty call trace); confirmation policy from the pending flag; the
unfiltered branch when the input schema is empty, the filtered branch
otherwise. -/
def GetLatestValue (e : EventBinding) (c : CodecOracle) (lp : LogPoller) :
    Option (GLVResult × List LpCall) :=
  if !e.bound then
    some (.err (.wrapMsg .invalidType "event not bound"), [])
  else
    let confs := if e.pending then Confirmations.unconfirmed else Confirmations.finalized
    if e.inputInfoArgsLen = 0 then
      getLatestValueWithoutFilters e c lp confs
    else
      getLatestValueWithFilters e c lp confs

/-- One lifecycle operation on a binding (for temporal claims about
sequences of calls). -/
inductive BindOp
  | bindTo (b : BoundContract)
  | unregisterOp
  | registerOp
deriving DecidableEq, Repr

/-- Run a sequence of lifecycle operations, threading binding and log
poller state (each Go call mutates state the same way whether or not its
caller inspects the returned error). -/
def runOps : EventBinding → LogPoller → List BindOp → EventBinding × LogPoller
  | e, lp, [] => (e, lp)
  | e, lp, .bindTo b :: rest =>
    let (e', lp', _) := Bind e lp b
    runOps e' lp' rest
  | e, lp, .unregisterOp :: rest =>
    let (lp', _) := Unregister e lp
    runOps e lp' rest
  | e, lp, .registerOp :: rest =>
    let (e', lp', _) := Register e lp
    runOps e' lp' rest

/-- The total order used by the spec for "newest": lexicographic on
(block number, log index), both ascending. -/
def lexLE (a b : Log) : Prop :=
  a.blockNumber < b.blockNumber ∨
    (a.blockNumber = b.blockNumber ∧ a.logIndex ≤ b.logIndex)

instance (a b : Log) : Decidable (lexLE a b) := by
  unfold lexLE
  exact inferInstance

/-- Concrete binding fixture: bound, one indexed input argument (filtered
path), no decodable topic fields. -/
def eW : EventBinding :=
  { address := "0xabc", hash := 7, pending := false, bound := true,
    registerCalled := false, id := "sub-1", inputInfoArgsLen := 1, topicInfoArgsLen := 0 }

/-- Concrete codec oracle fixture: one computed topic hash, every
decode step succeeding. -/
def cW : CodecOracle :=
  { encodeResult := .ok [1], dataDecode := fun _ => none,
    parseTopics := fun _ => none, mapDecode := none }

/-- Candidate logs realising the spec's two newest-selection examples:
blocks 10/indices 2 and 5, and blocks 11 and 12. -/
def logsW : List Log :=
  [⟨10, 2, [7, 1], []⟩, ⟨10, 5, [7, 1], []⟩, ⟨12, 0, [7, 1], []⟩, ⟨11, 0, [7, 1], []⟩]

/-- Log poller fixture returning `logsW` from `IndexedLogs`. -/
def lpW : LogPoller :=
  { filters := [], registerErr := none, unregisterErr := none,
    indexedLogsResult := .ok logsW, latestLogResult := .error ⟨"unused"⟩ }

/-- Binding fixture for the out-of-bounds narrowing scenario: two indexed
input arguments, so one filter is held back client-side. -/
def e9 : EventBinding :=
  { address := "0xdef", hash := 5, pending := false, bound := true,
    registerCalled := false, id := "sub-9", inputInfoArgsLen := 2, topicInfoArgsLen := 2 }

/-- Codec oracle fixture computing two topic hashes. -/
def c9 : CodecOracle :=
  { encodeResult := .ok [1, 2], dataDecode := fun _ => none,
    parseTopics := fun _ => none, mapDecode := none }

/-- A candidate log carrying only two topics — fewer than the
`remainingFilters.length + 2` the narrowing step indexes into. -/
def log9 : Log := ⟨3, 0, [5, 1], []⟩

/-- Log poller fixture returning the short-topic candidate. -/
def lp9 : LogPoller :=
  { filters := [], registerErr := none, unregisterErr := none,
    indexedLogsResult := .ok [log9], latestLogResult := .error ⟨"unused"⟩ }

/-- Binding fixture on the unfiltered path whose topic schema wants two
fields. -/
def e4 : EventBinding :=
  { address := "0x44", hash := 5, pending := false, bound := true,
    registerCalled := false, id := "sub-4", inputInfoArgsLen := 0, topicInfoArgsLen := 2 }

/-- A log with a single topic — fewer than `topicInfoArgsLen + 1`. -/
def log4 : Log := ⟨1, 0, [5], []⟩

/-- Log poller fixture whose latest-log query returns the short log. -/
def lp4 : LogPoller :=
  { filters := [], registerErr := none, unregisterErr := none,
    indexedLogsResult := .ok [], latestLogResult := .ok log4 }

/-- Lifecycle fixture: a fresh, unbound binding. -/
def eL : EventBinding :=
  { address := "a0", hash := 9, pending := false, bound := false,
    registerCalled := false, id := "sub-A", inputInfoArgsLen := 0, topicInfoArgsLen := 0 }

/-- A second binding sharing signature and address with `eL` but with a
distinct subscription id. -/
def eL2 : EventBinding :=
  { eL with id := "sub-B", bound := true }

/-- Log poller fixture with an empty filter set and no injected failures. -/
def lpL : LogPoller :=
  { filters := [], registerErr := none, unregisterErr := none,
    indexedLogsResult := .ok [], latestLogResult := .error ⟨"no rows in result set"⟩ }

/-- The filter `eL` would register. -/
def fA : Filter := ⟨"sub-A", [9], ["a0"]⟩

/-- Log poller fixture holding `fA` and failing unregistration. -/
def lpF : LogPoller :=
  { filters := [("sub-A", fA)], registerErr := none, unregisterErr := some ⟨"db down"⟩,
    indexedLogsResult := .ok [], latestLogResult := .error ⟨"unused"⟩ }

/-- A bound-contract value for rebinders. -/
def bC : BoundContract := ⟨"0x01", false⟩

/-- Candidate logs realising the spec's same-block example: blocks 10,
indices 2 and 5. -/
def logsW2 : List Log := [⟨10, 2, [7, 1], []⟩, ⟨10, 5, [7, 1], []⟩]

/-- Log poller fixture returning `logsW2` from `IndexedLogs`. -/
def lpW2 : LogPoller := { lpW with indexedLogsResult := .ok logsW2 }

lemma compareLogs_pos_iff (l u : Log) : 0 < compareLogs l (some u) ↔ ¬ lexLE l u := by
  simp only [compareLogs, lexLE]
  split_ifs with h <;> omega

lemma compareLogs_none_pos (l : Log) : 0 < compareLogs l none := by
  simp [compareLogs]

lemma lexLE_refl (l : Log) : lexLE l l := by
  simp [lexLE]

lemma lexLE_trans {a b c : Log} (h₁ : lexLE a b) (h₂ : lexLE b c) : lexLE a c := by
  simp only [lexLE] at *
  omega

lemma lexLE_of_not_lexLE {a b : Log} (h : ¬ lexLE a b) : lexLE b a := by
  simp only [lexLE] at *
  omega

lemma lookup_filterKey_ne (l : List (String × Filter)) (k₁ k₂ : String) (h : k₁ ≠ k₂) :
    (l.filter (fun p => p.1 ≠ k₁)).lookup k₂ = l.lookup k₂ := by
  induction l with
  | nil => rfl
  | cons hd tl ih =>
    rcases hd with ⟨k, v⟩
    rw [List.filter_cons]
    by_cases hk : k = k₁
    · subst hk
      rw [if_neg (by simp), List.lookup_cons, beq_false_of_ne (Ne.symm h)]
      exact ih
    · rw [if_pos (by simp [hk]), List.lookup_cons, List.lookup_cons]
      by_cases hk₂ : k₂ = k
      · subst hk₂
        simp
      · rw [beq_false_of_ne hk₂]
        exact ih

lemma lookup_filterKey_self (l : List (String × Filter)) (k : String) :
    (l.filter (fun p => p.1 ≠ k)).lookup k = none := by
  induction l with
  | nil => rfl
  | cons hd tl ih =>
    rcases hd with ⟨k', v⟩
    rw [List.filter_cons]
    by_cases hk : k' = k
    · subst hk
      rw [if_neg (by simp)]
      exact ih
    · rw [if_pos (by simp [hk]), List.lookup_cons, beq_false_of_ne (fun hc => hk hc.symm)]
      exact ih

lemma mrfFrom_eq_some_true_iff (log : Log) :
    ∀ (fs : List Hash) (j : Nat),
      matchesRemainingFiltersFrom log j fs = some true ↔
        ∀ i f, fs.get? i = some f → log.topics.get? (j + i + 2) = some f := by
  intro fs
  induction fs with
  | nil =>
    intro j
    simp [matchesRemainingFiltersFrom]
  | cons hd tl ih =>
    intro j
    simp only [matchesRemainingFiltersFrom]
    cases htop : log.topics.get? (j + 2) with
    | none =>
      constructor
      · intro h
        exact absurd h (by simp)
      · intro h
        exfalso
        have h0 := h 0 hd rfl
        rw [show j + 0 + 2 = j + 2 from rfl, htop] at h0
        exact Option.noConfusion h0
    | some t =>
      dsimp only
      by_cases heq : hd = t
      · subst heq
        rw [if_pos rfl, ih (j + 1)]
        constructor
        · intro h i f hif
          cases i with
          | zero =>
            have hf : hd = f := by simpa using hif
            subst hf
            simpa using htop
          | succ n =>
            have hn := h n f (by simpa using hif)
            have : j + 1 + n + 2 = j + (n + 1) + 2 := by omega
            rwa [this] at hn
        · intro h i f hif
          have hn := h (i + 1) f (by simpa using hif)
          have : j + (i + 1) + 2 = j + 1 + i + 2 := by omega
          rwa [this] at hn
      · rw [if_neg heq]
        constructor
        · intro h
          exact absurd h (by simp)
        · intro h
          exfalso
          have h0 := h 0 hd rfl
          rw [show j + 0 + 2 = j + 2 from rfl, htop] at h0
          exact heq (by injection h0 with h0; exact h0.symm)

lemma mrf_eq_some_true_iff (log : Log) (fs : List Hash) :
    matchesRemainingFilters log fs = some true ↔
      ∀ i f, fs.get? i = some f → log.topics.get? (i + 2) = some f := by
  rw [matchesRemainingFilters, mrfFrom_eq_some_true_iff]
  constructor
  · intro h i f hif
    have := h i f hif
    rwa [Nat.zero_add] at this
  · intro h i f hif
    rw [Nat.zero_add]
    exact h i f hif

lemma mrfFrom_isSome_of_length (log : Log) :
    ∀ (fs : List Hash) (j : Nat), j + fs.length + 2 ≤ log.topics.length →
      (matchesRemainingFiltersFrom log j fs).isSome = true := by
  intro fs
  induction fs with
  | nil =>
    intro j _
    simp [matchesRemainingFiltersFrom]
  | cons hd tl ih =>
    intro j hlen
    simp only [matchesRemainingFiltersFrom]
    cases htop : log.topics.get? (j + 2) with
    | none =>
      exfalso
      have := List.get?_eq_none.mp htop
      simp only [List.length_cons] at hlen
      omega
    | some t =>
      dsimp only
      by_cases heq : hd = t
      · rw [if_pos heq]
        apply ih (j + 1)
        simp only [List.length_cons] at hlen
        omega
      · rw [if_neg heq]
        rfl

lemma selectLatest_invariant (fs : List Hash) :
    ∀ (logs : List Log) (acc : Option Log),
      (∀ l ∈ logs, (matchesRemainingFilters l fs).isSome = true) →
      ∃ r, selectLatest fs logs acc = some r ∧
        ((r = acc ∧ ∀ l ∈ logs, matchesRemainingFilters l fs = some true →
            ∃ a, acc = some a ∧ lexLE l a) ∨
         (∃ b, r = some b ∧ b ∈ logs ∧ matchesRemainingFilters b fs = some true ∧
            (∀ l ∈ logs, matchesRemainingFilters l fs = some true → lexLE l b) ∧
            (∀ a, acc = some a → lexLE a b))) := by
  intro logs
  induction logs with
  | nil =>
    intro acc _
    exact ⟨acc, rfl, Or.inl ⟨rfl, by simp⟩⟩
  | cons log rest ih =>
    intro acc hdef
    have hlog := hdef log (List.mem_cons_self log rest)
    have hrest : ∀ l ∈ rest, (matchesRemainingFilters l fs).isSome = true :=
      fun l hl => hdef l (List.mem_cons_of_mem log hl)
    by_cases hcmp : 0 < compareLogs log acc
    · rcases hm : matchesRemainingFilters log fs with _ | tb
      · rw [hm] at hlog
        exact absurd hlog (by simp)
      · cases tb with
        | true =>
          rcases ih (some log) hrest with ⟨r, hr, hinv⟩
          refine ⟨r, ?_, ?_⟩
          · simp only [selectLatest, if_pos hcmp, hm]
            exact hr
          · right
            rcases hinv with ⟨hracc, hmax⟩ | ⟨b, hrb, hbmem, hbpass, hbmax, hbacc⟩
            · refine ⟨log, hracc, List.mem_cons_self log rest, hm, ?_, ?_⟩
              · intro l hl hpass
                rcases List.mem_cons.mp hl with rfl | hl
                · exact lexLE_refl l
                · rcases hmax l hl hpass with ⟨a, ha, hla⟩
                  injection ha with ha
                  rwa [ha]
              · intro a ha
                subst ha
                exact lexLE_of_not_lexLE ((compareLogs_pos_iff log a).mp hcmp)
            · have hlogb : lexLE log b := hbacc log rfl
              refine ⟨b, hrb, List.mem_cons_of_mem log hbmem, hbpass, ?_, ?_⟩
              · intro l hl hpass
                rcases List.mem_cons.mp hl with rfl | hl
                · exact hlogb
                · exact hbmax l hl hpass
              · intro a ha
                subst ha
                exact lexLE_trans
                  (lexLE_of_not_lexLE ((compareLogs_pos_iff log a).mp hcmp)) hlogb
        | false =>
          rcases ih acc hrest with ⟨r, hr, hinv⟩
          refine ⟨r, ?_, ?_⟩
          · simp only [selectLatest, if_pos hcmp, hm]
            exact hr
          · rcases hinv with ⟨hracc, hmax⟩ | ⟨b, hrb, hbmem, hbpass, hbmax, hbacc⟩
            · left
              refine ⟨hracc, ?_⟩
              intro l hl hpass
              rcases List.mem_cons.mp hl with rfl | hl
              · rw [hpass] at hm
                exact absurd hm (by simp)
              · exact hmax l hl hpass
            · right
              refine ⟨b, hrb, List.mem_cons_of_mem log hbmem, hbpass, ?_, hbacc⟩
              intro l hl hpass
              rcases List.mem_cons.mp hl with rfl | hl
              · rw [hpass] at hm
                exact absurd hm (by simp)
              · exact hbmax l hl hpass
    · rcases hacc : acc with _ | a
      · rw [hacc] at hcmp
        exact absurd (compareLogs_none_pos log) hcmp
      · rw [hacc] at hcmp
        have hla : lexLE log a := by
          by_contra hcon
          exact hcmp ((compareLogs_pos_iff log a).mpr hcon)
        rcases ih (some a) hrest with ⟨r, hr, hinv⟩
        refine ⟨r, ?_, ?_⟩
        · simp only [selectLatest, if_neg hcmp]
          exact hr
        · rcases hinv with ⟨hracc, hmax⟩ | ⟨b, hrb, hbmem, hbpass, hbmax, hbacc⟩
          · left
            refine ⟨hracc, ?_⟩
            intro l hl hpass
            rcases List.mem_cons.mp hl with rfl | hl
            · exact ⟨a, rfl, hla⟩
            · exact hmax l hl hpass
          · right
            refine ⟨b, hrb, List.mem_cons_of_mem log hbmem, hbpass, ?_, ?_⟩
            · intro l hl hpass
              rcases List.mem_cons.mp hl with rfl | hl
              · exact lexLE_trans hla (hbacc a rfl)
              · exact hbmax l hl hpass
            · intro a' ha'
              injection ha' with ha'
              subst ha'
              exact hbacc a rfl

lemma selectLatest_none_of_no_pass (fs : List Hash) (logs : List Log)
    (hdef : ∀ l ∈ logs, (matchesRemainingFilters l fs).isSome = true)
    (hno : ∀ l ∈ logs, matchesRemainingFilters l fs ≠ some true) :
    selectLatest fs logs none = some none := by
  obtain ⟨r, hr, hinv⟩ := selectLatest_invariant fs logs none hdef
  rcases hinv with ⟨hracc, _⟩ | ⟨b, _, hbmem, hbpass, _, _⟩
  · rwa [hracc] at hr
  · exact absurd hbpass (hno b hbmem)

lemma selectLatest_some_spec (fs : List Hash) (logs : List Log) (l : Log)
    (hdef : ∀ l' ∈ logs, (matchesRemainingFilters l' fs).isSome = true)
    (h : selectLatest fs logs none = some (some l)) :
    l ∈ logs ∧ matchesRemainingFilters l fs = some true ∧
      ∀ l' ∈ logs, matchesRemainingFilters l' fs = some true → lexLE l' l := by
  obtain ⟨r, hr, hinv⟩ := selectLatest_invariant fs logs none hdef
  rw [hr] at h
  injection h with h
  subst h
  rcases hinv with ⟨hracc, _⟩ | ⟨b, hrb, hbmem, hbpass, hbmax, _⟩
  · exact absurd hracc (by simp)
  · injection hrb with hrb
    subst hrb
    exact ⟨hbmem, hbpass, hbmax⟩

lemma selectLatest_some_of_pass (fs : List Hash) (logs : List Log)
    (hdef : ∀ l ∈ logs, (matchesRemainingFilters l fs).isSome = true)
    (hex : ∃ l ∈ logs, matchesRemainingFilters l fs = some true) :
    ∃ l, selectLatest fs logs none = some (some l) := by
  obtain ⟨r, hr, hinv⟩ := selectLatest_invariant fs logs none hdef
  rcases hinv with ⟨_, hmax⟩ | ⟨b, hrb, _, _, _, _⟩
  · rcases hex with ⟨l, hl, hp⟩
    rcases hmax l hl hp with ⟨a, ha, _⟩
    exact absurd ha (by simp)
  · exact ⟨b, by rw [hr, hrb]⟩

lemma unregister_removes (e : EventBinding) (lp lp' : LogPoller)
    (h : Unregister e lp = (lp', none)) : hasFilter lp' e.id = false := by
  unfold Unregister at h
  cases hc : hasFilter lp e.id with
  | false =>
    rw [hc] at h
    simp only [Bool.not_false, if_true] at h
    injection h with h _
    rw [← h]
    exact hc
  | true =>
    rw [hc] at h
    simp only [Bool.not_true, if_false] at h
    unfold unregisterFilter at h
    cases hue : lp.unregisterErr with
    | some err =>
      rw [hue] at h
      exact absurd (congrArg Prod.snd h) (by simp)
    | none =>
      rw [hue] at h
      injection h with h _
      rw [← h]
      unfold hasFilter
      simp only [lookup_filterKey_self, Option.isSome_none]

lemma register_fst (e : EventBinding) (lp : LogPoller) :
    (Register e lp).1 = { e with registerCalled := true } := by
  unfold Register
  by_cases hc : (!e.bound || hasFilter lp e.id) = true
  · rw [if_pos hc]
  · rw [if_neg hc]
    cases registerFilter lp ⟨e.id, [e.hash], [e.address]⟩ <;> rfl

lemma getLatestValue_filtered_shape (e : EventBinding) (c : CodecOracle) (lp : LogPoller)
    (fai : Hash) (rest : List Hash)
    (hb : e.bound = true) (hlen : e.inputInfoArgsLen ≠ 0)
    (henc : c.encodeResult = .ok (fai :: rest)) :
    GetLatestValue e c lp =
      match lp.indexedLogsResult with
      | .error err =>
        match wrapInternalErr (some err) with
        | some werr => some (.err werr,
            [LpCall.indexedLogs e.hash e.address 1 [fai]
              (if e.pending then Confirmations.unconfirmed else Confirmations.finalized)])
        | none => none
      | .ok logs =>
        match selectLatest rest logs none with
        | none => none
        | some none => some (.err (.wrapMsg .notFound "no events found"),
            [LpCall.indexedLogs e.hash e.address 1 [fai]
              (if e.pending then Confirmations.unconfirmed else Confirmations.finalized)])
        | some (some l) => some (glvOfDecode e c l,
            [LpCall.indexedLogs e.hash e.address 1 [fai]
              (if e.pending then Confirmations.unconfirmed else Confirmations.finalized)]) := by
  unfold GetLatestValue getLatestValueWithFilters
  rw [hb, henc]
  simp only [Bool.not_true, if_false, if_neg hlen]
  rw [if_neg Bool.false_ne_true]

lemma wrapInternalErr_some_isSome (err : GoErr) :
    ∃ w, wrapInternalErr (some err) = some w := by
  unfold wrapInternalErr
  dsimp only
  split
  · exact ⟨_, rfl⟩
  · exact ⟨_, rfl⟩

lemma getLatestValue_filtered_eq (e : EventBinding) (c : CodecOracle) (lp : LogPoller)
    (fai : Hash) (rest : List Hash) (logs : List Log)
    (hb : e.bound = true) (hlen : e.inputInfoArgsLen ≠ 0)
    (henc : c.encodeResult = .ok (fai :: rest))
    (hlogs : lp.indexedLogsResult = .ok logs) :
    GetLatestValue e c lp =
      match selectLatest rest logs none with
      | none => none
      | some none => some (.err (.wrapMsg .notFound "no events found"),
          [LpCall.indexedLogs e.hash e.address 1 [fai]
            (if e.pending then Confirmations.unconfirmed else Confirmations.finalized)])
      | some (some l) => some (glvOfDecode e c l,
          [LpCall.indexedLogs e.hash e.address 1 [fai]
            (if e.pending then Confirmations.unconfirmed else Confirmations.finalized)]) := by
  unfold GetLatestValue getLatestValueWithFilters
  rw [hb, henc, hlogs]
  simp only [Bool.not_true, if_false, if_neg hlen]
  rw [if_neg Bool.false_ne_true]

lemma getLatestValue_unfiltered_eq (e : EventBinding) (c : CodecOracle) (lp : LogPoller)
    (log : Log) (hb : e.bound = true) (hlen0 : e.inputInfoArgsLen = 0)
    (hlog : lp.latestLogResult = .ok log) :
    GetLatestValue e c lp =
      some (glvOfDecode e c log,
        [LpCall.latestLog e.hash e.address
          (if e.pending then Confirmations.unconfirmed else Confirmations.finalized)]) := by
  unfold GetLatestValue getLatestValueWithoutFilters
  rw [hb, hlog]
  simp only [Bool.not_true, if_false, if_pos hlen0]
  rw [if_neg Bool.false_ne_true]

/-- C1: In the filtered path of `GetLatestValue`, among the candidate
logs that pass the remaining-topic narrowing, the log selected for
decoding is the one with the greatest (block number, log index) pair
under the lexicographic order; if no candidate survives narrowing,
`GetLatestValue` fails with `NotFound` ("no events found"). -/
theorem getLatestValue_newest_selection (e : EventBinding) (c : CodecOracle)
    (lp : LogPoller) (fai : Hash) (rest : List Hash) (logs : List Log)
    (hb : e.bound = true) (hlen : e.inputInfoArgsLen ≠ 0)
    (henc : c.encodeResult = .ok (fai :: rest))
    (hlogs : lp.indexedLogsResult = .ok logs)
    (hdef : ∀ l ∈ logs, (matchesRemainingFilters l rest).isSome = true) :
    ((∀ l ∈ logs, matchesRemainingFilters l rest ≠ some true) →
      GetLatestValue e c lp =
        some (.err (.wrapMsg .notFound "no events found"),
          [LpCall.indexedLogs e.hash e.address 1 [fai]
            (if e.pending then Confirmations.unconfirmed else Confirmations.finalized)])) ∧
    (∀ l, selectLatest rest logs none = some (some l) →
      GetLatestValue e c lp =
        some (glvOfDecode e c l,
          [LpCall.indexedLogs e.hash e.address 1 [fai]
            (if e.pending then Confirmations.unconfirmed else Confirmations.finalized)]) ∧
      l ∈ logs ∧ matchesRemainingFilters l rest = some true ∧
      ∀ l' ∈ logs, matchesRemainingFilters l' rest = some true → lexLE l' l) ∧
    ((∃ l ∈ logs, matchesRemainingFilters l rest = some true) →
      ∃ l, selectLatest rest logs none = some (some l)) := by
  have heq := getLatestValue_filtered_eq e c lp fai rest logs hb hlen henc hlogs
  refine ⟨?_, ?_, ?_⟩
  · intro hno
    rw [heq, selectLatest_none_of_no_pass rest logs hdef hno]
  · intro l hsel
    obtain ⟨hmem, hpass, hmax⟩ := selectLatest_some_spec rest logs l hdef hsel
    exact ⟨by rw [heq, hsel], hmem, hpass, hmax⟩
  · exact selectLatest_some_of_pass rest logs hdef

/-- C1 witness: on concrete candidate sets the selection picks block 12
over block 11, and within block 10 the index-5 log over the index-2 log. -/
theorem getLatestValue_newest_selection_witness :
    GetLatestValue eW cW lpW =
      some (.ok ⟨12, 0, [7, 1], []⟩, [LpCall.indexedLogs 7 "0xabc" 1 [1] .finalized]) ∧
    GetLatestValue eW cW lpW2 =
      some (.ok ⟨10, 5, [7, 1], []⟩, [LpCall.indexedLogs 7 "0xabc" 1 [1] .finalized]) ∧
    lexLE ⟨10, 2, [7, 1], []⟩ ⟨10, 5, [7, 1], []⟩ := by
  have h1 := (getLatestValue_newest_selection eW cW lpW 1 [] logsW rfl (by decide) rfl rfl
    (by decide)).2.1 ⟨12, 0, [7, 1], []⟩ (by decide)
  have h2 := (getLatestValue_newest_selection eW cW lpW2 1 [] logsW2 rfl (by decide) rfl rfl
    (by decide)).2.1 ⟨10, 5, [7, 1], []⟩ (by decide)
  refine ⟨h1.1.trans (by decide), h2.1.trans (by decide), ?_⟩
  exact h2.2.2.2 ⟨10, 2, [7, 1], []⟩ (by decide) (by decide)

/-- C2: a candidate is retained by the narrowing step iff, for every
index `i` below the number of remaining computed topic hashes, the log's
topic at slot `i + 2` equals the `i`-th remaining hash; a non-matching
candidate is skipped silently by the selection loop (no error produced
for it). -/
theorem matchesRemainingFilters_retained_iff (log : Log) (fs : List Hash) :
    (matchesRemainingFilters log fs = some true ↔
      ∀ i f, fs.get? i = some f → log.topics.get? (i + 2) = some f) ∧
    (∀ (rest : List Log) (acc : Option Log),
      matchesRemainingFilters log fs = some false →
        selectLatest fs (log :: rest) acc = selectLatest fs rest acc) := by
  refine ⟨mrf_eq_some_true_iff log fs, ?_⟩
  intro rest acc hm
  by_cases hcmp : 0 < compareLogs log acc
  · simp only [selectLatest, if_pos hcmp, hm]
  · simp only [selectLatest, if_neg hcmp]

/-- C2 witness: a log matching both remaining hashes at slots 2 and 3 is
retained (its slot-2 topic is the first remaining hash), and a
mismatching log is skipped without affecting the loop. -/
theorem matchesRemainingFilters_retained_iff_witness :
    (⟨1, 0, [7, 9, 3, 4], []⟩ : Log).topics.get? 2 = some 3 ∧
    selectLatest [8] [⟨1, 0, [7, 9, 3, 4], []⟩] none = selectLatest [8] [] none := by
  refine ⟨(matchesRemainingFilters_retained_iff ⟨1, 0, [7, 9, 3, 4], []⟩ [3, 4]).1.mp
    (by decide) 0 3 rfl, ?_⟩
  exact (matchesRemainingFilters_retained_iff ⟨1, 0, [7, 9, 3, 4], []⟩ [8]).2 [] none (by decide)

/-- C5: in the filtered path exactly the first computed topic hash is
passed to `IndexedLogs` as the native filter at topic slot 1 (with the
signature hash, bound address and confirmation policy), and the
remaining hashes are applied only afterwards, client-side, over the
returned candidates. -/
theorem firstTopic_native_rest_clientSide (e : EventBinding) (c : CodecOracle)
    (lp : LogPoller) (fai : Hash) (rest : List Hash)
    (hb : e.bound = true) (hlen : e.inputInfoArgsLen ≠ 0)
    (henc : c.encodeResult = .ok (fai :: rest)) :
    (∀ r calls, GetLatestValue e c lp = some (r, calls) →
      calls = [LpCall.indexedLogs e.hash e.address 1 [fai]
        (if e.pending then Confirmations.unconfirmed else Confirmations.finalized)]) ∧
    (∀ logs, lp.indexedLogsResult = .ok logs →
      GetLatestValue e c lp =
        match selectLatest rest logs none with
        | none => none
        | some none => some (.err (.wrapMsg .notFound "no events found"),
            [LpCall.indexedLogs e.hash e.address 1 [fai]
              (if e.pending then Confirmations.unconfirmed else Confirmations.finalized)])
        | some (some l) => some (glvOfDecode e c l,
            [LpCall.indexedLogs e.hash e.address 1 [fai]
              (if e.pending then Confirmations.unconfirmed else Confirmations.finalized)])) := by
  constructor
  · intro r calls h
    rw [getLatestValue_filtered_shape e c lp fai rest hb hlen henc] at h
    cases hlogs : lp.indexedLogsResult with
    | error err =>
      rw [hlogs] at h
      dsimp only at h
      rcases wrapInternalErr_some_isSome err with ⟨w, hw⟩
      rw [hw] at h
      dsimp only at h
      injection h with h
      exact (congrArg Prod.snd h).symm
    | ok logs =>
      rw [hlogs] at h
      dsimp only at h
      rcases hsel : selectLatest rest logs none with _ | r'
      · rw [hsel] at h
        exact absurd h (by simp)
      · rcases r' with _ | l <;> rw [hsel] at h <;> dsimp only at h <;>
          injection h with h <;> exact (congrArg Prod.snd h).symm
  · intro logs hlogs
    exact getLatestValue_filtered_eq e c lp fai rest logs hb hlen henc hlogs

/-- C5 witness: on the concrete fixture the single log-source call is
`IndexedLogs` with topic slot 1 and exactly the first hash, and the held
back remainder drives the client-side outcome. -/
theorem firstTopic_native_rest_clientSide_witness :
    ([LpCall.indexedLogs 7 "0xabc" 1 [1] .finalized] :
      List LpCall) = [LpCall.indexedLogs eW.hash eW.address 1 [1]
        (if eW.pending then Confirmations.unconfirmed else Confirmations.finalized)] ∧
    GetLatestValue eW cW lpW =
      match selectLatest [] logsW none with
      | none => none
      | some none => some (.err (.wrapMsg .notFound "no events found"),
          [LpCall.indexedLogs eW.hash eW.address 1 [1]
            (if eW.pending then Confirmations.unconfirmed else Confirmations.finalized)])
      | some (some l) => some (glvOfDecode eW cW l,
          [LpCall.indexedLogs eW.hash eW.address 1 [1]
            (if eW.pending then Confirmations.unconfirmed else Confirmations.finalized)]) := by
  constructor
  · have h := (firstTopic_native_rest_clientSide eW cW lpW 1 [] rfl (by decide) rfl).1
      (.ok ⟨12, 0, [7, 1], []⟩) [LpCall.indexedLogs 7 "0xabc" 1 [1] .finalized] (by decide)
    exact h
  · exact (firstTopic_native_rest_clientSide eW cW lpW 1 [] rfl (by decide) rfl).2 logsW rfl

/-- C6: the log-source error-wrapping function maps `nil` to `nil`,
re-signals messages containing "not found" or "no rows" as `NotFound`
wrapping the original error, and everything else as `Internal` wrapping
the original error — the original error is always retained. -/
theorem wrapInternalErr_policy :
    wrapInternalErr none = none ∧
    (∀ err : GoErr,
      (containsSubstr err.msg "not found" || containsSubstr err.msg "no rows") = true →
        wrapInternalErr (some err) = some (.wrapGo .notFound err)) ∧
    (∀ err : GoErr,
      (containsSubstr err.msg "not found" || containsSubstr err.msg "no rows") = false →
        wrapInternalErr (some err) = some (.wrapGo .internal err)) := by
  refine ⟨rfl, ?_, ?_⟩
  · intro err h
    unfold wrapInternalErr
    dsimp only
    rw [if_pos h]
  · intro err h
    unfold wrapInternalErr
    dsimp only
    rw [if_neg (by rw [h]; exact Bool.false_ne_true)]

/-- C6 witness: an absence-style message wraps `NotFound`, any other
message wraps `Internal`, both retaining the cause. -/
theorem wrapInternalErr_policy_witness :
    wrapInternalErr (some ⟨"sql: no rows in result set"⟩) =
      some (.wrapGo .notFound ⟨"sql: no rows in result set"⟩) ∧
    wrapInternalErr (some ⟨"connection refused"⟩) =
      some (.wrapGo .internal ⟨"connection refused"⟩) :=
  ⟨wrapInternalErr_policy.2.1 ⟨"sql: no rows in result set"⟩ (by decide),
   wrapInternalErr_policy.2.2 ⟨"connection refused"⟩ (by decide)⟩

/-- C9: narrowing indexes topics at slots 2 through k+1 with no bounds
check — it is total when every candidate carries at least k+2 topics,
and a candidate with fewer topics neither gets excluded nor produces
`InvalidType`: the access is out of bounds (the Go panic, `none`), which
propagates through `GetLatestValue`. -/
theorem matchesRemainingFilters_oob :
    (∀ (log : Log) (fs : List Hash), fs.length + 2 ≤ log.topics.length →
      (matchesRemainingFilters log fs).isSome = true) ∧
    matchesRemainingFilters log9 [2] = none ∧
    GetLatestValue e9 c9 lp9 = none := by
  refine ⟨?_, by decide, by decide⟩
  intro log fs hlen
  exact mrfFrom_isSome_of_length log fs 0 (by omega)

/-- C9 witness: a log with three topics is safely narrowed against one
remaining filter. -/
theorem matchesRemainingFilters_oob_witness :
    (matchesRemainingFilters ⟨0, 0, [0, 0, 0], []⟩ [0]).isSome = true :=
  matchesRemainingFilters_oob.1 ⟨0, 0, [0, 0, 0], []⟩ [0] (by decide)

/-- C4: `GetLatestValue` wraps `InvalidType` (a) on an unbound binding
("event not bound"), returned before any log-source call, and (b) when
the log selected for decoding carries fewer than
`len(topic schema) + 1` topics ("not enough topics to decode"). -/
theorem getLatestValue_invalidType_cases :
    (∀ (e : EventBinding) (c : CodecOracle) (lp : LogPoller), e.bound = false →
      GetLatestValue e c lp =
        some (.err (.wrapMsg .invalidType "event not bound"), [])) ∧
    (∀ (e : EventBinding) (c : CodecOracle) (log : Log),
      c.dataDecode log = none → log.topics.length < e.topicInfoArgsLen + 1 →
        decodeLog e c log = some (.wrapMsg .invalidType "not enough topics to decode")) ∧
    (∀ (e : EventBinding) (c : CodecOracle) (lp : LogPoller) (log : Log),
      e.bound = true → e.inputInfoArgsLen = 0 → lp.latestLogResult = .ok log →
      c.dataDecode log = none → log.topics.length < e.topicInfoArgsLen + 1 →
        GetLatestValue e c lp =
          some (.err (.wrapMsg .invalidType "not enough topics to decode"),
            [LpCall.latestLog e.hash e.address
              (if e.pending then Confirmations.unconfirmed else Confirmations.finalized)])) := by
  have hdec : ∀ (e : EventBinding) (c : CodecOracle) (log : Log),
      c.dataDecode log = none → log.topics.length < e.topicInfoArgsLen + 1 →
        decodeLog e c log = some (.wrapMsg .invalidType "not enough topics to decode") := by
    intro e c log hd hlt
    unfold decodeLog
    rw [hd]
    dsimp only
    rw [if_pos hlt]
  refine ⟨?_, hdec, ?_⟩
  · intro e c lp h
    unfold GetLatestValue
    rw [h]
    rfl
  · intro e c lp log hb hlen0 hlog hd hlt
    rw [getLatestValue_unfiltered_eq e c lp log hb hlen0 hlog]
    unfold glvOfDecode
    rw [hdec e c log hd hlt]

/-- C4 witness: the unbound fixture fails with "event not bound" and no
log-source call; the bound fixture whose latest log has one topic against
a two-field topic schema fails with "not enough topics to decode". -/
theorem getLatestValue_invalidType_cases_witness :
    GetLatestValue { e4 with bound := false } c9 lp4 =
      some (.err (.wrapMsg .invalidType "event not bound"), []) ∧
    GetLatestValue e4 c9 lp4 =
      some (.err (.wrapMsg .invalidType "not enough topics to decode"),
        [LpCall.latestLog 5 "0x44" .finalized]) := by
  constructor
  · exact getLatestValue_invalidType_cases.1 { e4 with bound := false } c9 lp4 rfl
  · exact (getLatestValue_invalidType_cases.2.2 e4 c9 lp4 log4 rfl rfl rfl rfl
      (by decide)).trans (by decide)

/-- C3: `Bind` first performs `Unregister` (afterwards no filter for the
binding's id remains), then installs the new address and pending flag
and marks the binding bound, then calls `Register` again iff the
register-requested latch was previously set; if the initial `Unregister`
fails, `Bind` returns that error with the binding unmodified. -/
theorem bind_unregister_first_then_update (e : EventBinding) (lp : LogPoller)
    (b : BoundContract) :
    (∀ lp' err, Unregister e lp = (lp', some err) → Bind e lp b = (e, lp', some err)) ∧
    (∀ lp', Unregister e lp = (lp', none) →
      hasFilter lp' e.id = false ∧
      (Bind e lp b).1.address = hexToAddress b.address ∧
      (Bind e lp b).1.pending = b.pending ∧
      (Bind e lp b).1.bound = true ∧
      (e.registerCalled = true →
        Bind e lp b =
          Register
            { e with
              address := hexToAddress b.address,
              pending := b.pending,
              bound := true } lp') ∧
      (e.registerCalled = false →
        Bind e lp b =
          ({ e with
             address := hexToAddress b.address,
             pending := b.pending,
             bound := true }, lp', none))) := by
  constructor
  · intro lp' err h
    unfold Bind
    rw [h]
  · intro lp' h
    have hbind : Bind e lp b =
        (if e.registerCalled then
          Register
            { e with
              address := hexToAddress b.address,
              pending := b.pending,
              bound := true } lp'
         else
          ({ e with
             address := hexToAddress b.address,
             pending := b.pending,
             bound := true }, lp', none)) := by
      unfold Bind
      rw [h]
    have hfields : (Bind e lp b).1.address = hexToAddress b.address ∧
        (Bind e lp b).1.pending = b.pending ∧ (Bind e lp b).1.bound = true := by
      rw [hbind]
      cases hrc : e.registerCalled
      · rw [if_neg Bool.false_ne_true]
        exact ⟨rfl, rfl, rfl⟩
      · rw [if_pos rfl, register_fst]
        exact ⟨rfl, rfl, rfl⟩
    refine ⟨unregister_removes e lp lp' h, hfields.1, hfields.2.1, hfields.2.2, ?_, ?_⟩
    · intro hrc
      rw [hbind, if_pos hrc]
    · intro hrc
      rw [hbind, if_neg (by rw [hrc]; exact Bool.false_ne_true)]

/-- C3 witness: with an injected unregistration failure `Bind` returns
the wrapped error and the untouched binding; with a clean unregistration
the rebound binding carries the new address and is bound. -/
theorem bind_unregister_first_then_update_witness :
    Bind eL lpF bC = (eL, lpF, some (.wrapGo .internal ⟨"db down"⟩)) ∧
    (Bind eL lpL bC).1.address = "0x01" ∧ (Bind eL lpL bC).1.bound = true := by
  refine ⟨(bind_unregister_first_then_update eL lpF bC).1 lpF
    (.wrapGo .internal ⟨"db down"⟩) (by decide), ?_, ?_⟩
  · exact ((bind_unregister_first_then_update eL lpL bC).2 lpL (by decide)).2.1
  · exact ((bind_unregister_first_then_update eL lpL bC).2 lpL (by decide)).2.2.2.1

/-- C7: over any sequence of `Bind` and `Unregister` operations in which
`Register` is never called, a binding whose register-requested latch is
unset and that starts with no filter at the log source never acquires
one (and the latch stays unset, the subscription id never changes). -/
theorem no_register_no_filter (e : EventBinding) (lp : LogPoller) (ops : List BindOp)
    (h1 : e.registerCalled = false) (h2 : hasFilter lp e.id = false)
    (h3 : ∀ op ∈ ops, op ≠ BindOp.registerOp) :
    (runOps e lp ops).1.id = e.id ∧
    (runOps e lp ops).1.registerCalled = false ∧
    hasFilter (runOps e lp ops).2 e.id = false := by
  induction ops generalizing e lp with
  | nil => exact ⟨rfl, h1, h2⟩
  | cons op rest ih =>
    have h3' : ∀ op' ∈ rest, op' ≠ BindOp.registerOp :=
      fun op' hop' => h3 op' (List.mem_cons_of_mem _ hop')
    cases op with
    | registerOp => exact absurd rfl (h3 _ (List.mem_cons_self _ _))
    | unregisterOp =>
      have hop : Unregister e lp = (lp, none) := by
        unfold Unregister
        rw [h2]
        rfl
      simp only [runOps, hop]
      exact ih e lp h1 h2 h3'
    | bindTo b =>
      have hunreg : Unregister e lp = (lp, none) := by
        unfold Unregister
        rw [h2]
        rfl
      have hbind : Bind e lp b =
          ({ e with
             address := hexToAddress b.address,
             pending := b.pending,
             bound := true }, lp, none) := by
        unfold Bind
        rw [hunreg]
        dsimp only
        rw [if_neg (by rw [h1]; exact Bool.false_ne_true)]
      simp only [runOps, hbind]
      exact ih _ lp h1 h2 h3'

/-- C7 witness: bind, unregister, bind again — with registration never
requested — leaves the fixture's log poller without a filter for the
binding's id. -/
theorem no_register_no_filter_witness :
    hasFilter (runOps eL lpL
      [.bindTo bC, .unregisterOp, .bindTo ⟨"0x02", true⟩]).2 "sub-A" = false :=
  (no_register_no_filter eL lpL [.bindTo bC, .unregisterOp, .bindTo ⟨"0x02", true⟩]
    rfl (by decide) (by decide)).2.2

/-- C8: for two bindings with distinct subscription ids — even sharing
signature hash and address — `Register` and `Unregister` on one leave
the presence of the other's filter at the log source unchanged. -/
theorem register_unregister_frame (e₁ e₂ : EventBinding) (lp : LogPoller)
    (h : e₁.id ≠ e₂.id) :
    hasFilter (Register e₁ lp).2.1 e₂.id = hasFilter lp e₂.id ∧
    hasFilter (Unregister e₁ lp).1 e₂.id = hasFilter lp e₂.id := by
  constructor
  · unfold Register
    dsimp only
    by_cases hc : (!e₁.bound || hasFilter lp e₁.id) = true
    · rw [if_pos hc]
    · rw [if_neg hc]
      unfold registerFilter
      cases hre : lp.registerErr with
      | some err => rfl
      | none =>
        dsimp only
        unfold hasFilter
        dsimp only
        rw [List.lookup_cons, beq_false_of_ne (Ne.symm h)]
        rw [lookup_filterKey_ne lp.filters e₁.id e₂.id h]
  · unfold Unregister
    cases hc : hasFilter lp e₁.id with
    | false => rfl
    | true =>
      simp only [Bool.not_true]
      rw [if_neg Bool.false_ne_true]
      unfold unregisterFilter
      cases hue : lp.unregisterErr with
      | some err => rfl
      | none =>
        dsimp only
        unfold hasFilter
        dsimp only
        rw [lookup_filterKey_ne lp.filters e₁.id e₂.id h]

/-- C8 witness: registering the `sub-B` binding and unregistering it do
not change the absence of the `sub-A` filter. -/
theorem register_unregister_frame_witness :
    hasFilter (Register eL2 lpL).2.1 "sub-A" = hasFilter lpL "sub-A" ∧
    hasFilter (Unregister eL2 lpL).1 "sub-A" = hasFilter lpL "sub-A" :=
  register_unregister_frame eL2 eL lpL (by decide)

/-- C10: `Register` on a not-yet-bound binding succeeds, registers no
filter, but sets the register-requested latch; the first subsequent
`Bind` then creates and registers a filter for the binding's id. -/
theorem register_unbound_latch (e : EventBinding) (lp : LogPoller) (b : BoundContract)
    (hb : e.bound = false) (hnf : hasFilter lp e.id = false)
    (hre : lp.registerErr = none) :
    Register e lp = ({ e with registerCalled := true }, lp, none) ∧
    hasFilter (Bind (Register e lp).1 lp b).2.1 e.id = true ∧
    (Bind (Register e lp).1 lp b).2.2 = none := by
  have h1 : Register e lp = ({ e with registerCalled := true }, lp, none) := by
    have hcond : (!({ e with registerCalled := true } : EventBinding).bound
        || hasFilter lp ({ e with registerCalled := true } : EventBinding).id) = true := by
      show (!e.bound || hasFilter lp e.id) = true
      rw [hb, hnf]
      rfl
    unfold Register
    dsimp only
    rw [if_pos hcond]
  have hu : Unregister { e with registerCalled := true } lp = (lp, none) := by
    have hnf' : hasFilter lp ({ e with registerCalled := true } : EventBinding).id
        = false := hnf
    unfold Unregister
    rw [hnf']
    rfl
  have h2 : Bind { e with registerCalled := true } lp b =
      Register
        { e with
          registerCalled := true,
          address := hexToAddress b.address,
          pending := b.pending,
          bound := true } lp := by
    unfold Bind
    rw [hu]
    dsimp only
    rw [if_pos rfl]
  have h3 : Register
      { e with
        registerCalled := true,
        address := hexToAddress b.address,
        pending := b.pending,
        bound := true } lp =
      ({ e with
         registerCalled := true,
         address := hexToAddress b.address,
         pending := b.pending,
         bound := true },
        { lp with
          filters := (e.id, ⟨e.id, [e.hash], [hexToAddress b.address]⟩) ::
            lp.filters.filter (fun p => p.1 ≠ e.id) }, none) := by
    have hcond3 : ¬ ((!true || hasFilter lp e.id) = true) := by
      simp [hnf]
    unfold Register
    dsimp only
    rw [if_neg hcond3]
    unfold registerFilter
    rw [hre]
  refine ⟨h1, ?_, ?_⟩
  · rw [h1]
    dsimp only
    rw [h2, h3]
    unfold hasFilter
    dsimp only
    rw [List.lookup_cons]
    simp
  · rw [h1]
    dsimp only
    rw [h2, h3]

/-- C10 witness: on the unbound fixture, `Register` only sets the latch;
the following `Bind` installs exactly the filter for `sub-A`. -/
theorem register_unbound_latch_witness :
    Register eL lpL = ({ eL with registerCalled := true }, lpL, none) ∧
    hasFilter (Bind (Register eL lpL).1 lpL bC).2.1 "sub-A" = true := by
  have h := register_unbound_latch eL lpL bC rfl rfl rfl
  exact ⟨h.1, h.2.1⟩

end EvmEvent
